import Mathlib

/-
Verification model of the osgEarth extrusion filter
(src/src/osgEarth/ExtrudeGeometryFilter.cpp).

Modelling conventions:
* C++ doubles are modelled exactly by the rationals.  All field operations
  (+, -, *, /, comparisons, fabs, fmod, osg::round) are embedded exactly;
  division by zero is total on the rationals (x / 0 = 0), a case none of the
  verified claims depends on.
* The Euclidean vector length (osg::Vec3d::length, an external math-library
  routine involving a square root, which is not rational-valued) is passed
  around as an explicit parameter `len : Vec3 -> Rat`.  Theorems that need
  facts about it (such as nonnegativity) take them as hypotheses; concrete
  witnesses instantiate `len` with a computable length-like function.
* The filter is modelled in its non-georeferenced configuration
  (cx.isGeoreferenced() false), in which transformAndLocalize is never
  invoked and the roof-skin texture-coordinate pass (guarded by
  `roofSkin && srs`) writes nothing; buildStructure lines 211-220, 262-264,
  277-319 and 369-388 therefore contribute nothing to the structure and the
  roof-skin argument is dropped from the model.
* The intermediate `Corners` list of buildStructure is a std::list in the
  source; it is modelled as a Lean list, with the in-place insertions of the
  texture-tiling pass rendered as list concatenation in iteration order.
* The possibly non-terminating texture-tiling while loop (lines 430-464) is
  modelled with explicit fuel, returning none when the fuel is exhausted; a
  run of the C++ loop that terminates is reproduced exactly by any
  sufficiently large fuel, and an input on which the model returns none for
  every fuel is an input on which the C++ loop never exits.
* The Corner / Elevation / Structure record types are declared in the
  filter's header, which is not part of the sources; their fields are
  modelled from the specification's data-model section (Corner: base, roof,
  isFromSource, height, offsetX, roofTexU/V, cosAngle; Elevation: ordered
  Corners, ordered Faces, texHeightAdjustedM; Structure: isPolygon,
  verticalOffset, Elevations).  Numeric fields of a freshly constructed
  Corner default to 0.
-/

namespace ExtrudeModel

/-- A 3-component vector over the rationals, modelling osg::Vec3d. -/
structure Vec3 where
  x : ℚ
  y : ℚ
  z : ℚ
deriving DecidableEq

instance : Add Vec3 := ⟨fun a b => ⟨a.x + b.x, a.y + b.y, a.z + b.z⟩⟩
instance : Sub Vec3 := ⟨fun a b => ⟨a.x - b.x, a.y - b.y, a.z - b.z⟩⟩
instance : SMul ℚ Vec3 := ⟨fun q v => ⟨q * v.x, q * v.y, q * v.z⟩⟩

/-- The zero vector (osg::Vec3 default constructor). -/
def vzero : Vec3 := ⟨0, 0, 0⟩

/-- Cross product, modelling osg::Vec3 operator^ (used for wall normals). -/
def cross (a b : Vec3) : Vec3 :=
  ⟨a.y * b.z - a.z * b.y, a.z * b.x - a.x * b.z, a.x * b.y - a.y * b.x⟩

/-- Dot product, modelling osg::Vec3d operator* (used for cosAngle). -/
def dot (a b : Vec3) : ℚ := a.x * b.x + a.y * b.y + a.z * b.z

/-- Squared length, modelling osg::Vec3d::length2 (exact on rationals). -/
def len2v (v : Vec3) : ℚ := v.x * v.x + v.y * v.y + v.z * v.z

/-- A computable stand-in for the Euclidean length used by concrete
witnesses: nonnegative everywhere, and it agrees with the Euclidean length
on axis-aligned vectors. -/
def l1 (v : Vec3) : ℚ := |v.x| + |v.y| + |v.z|

/-- The constant-zero length function, used by witnesses whose claim does
not constrain the length function at all. -/
def len0 (_ : Vec3) : ℚ := 0

/-- Normalization v / len(v), modelling osg::Vec3d::normalize relative to
the external length routine `len`. -/
def normalizeV (len : Vec3 → ℚ) (v : Vec3) : Vec3 := (1 / len v) • v

/-- Truncation toward zero, the rounding mode of C fmod. -/
def truncQ (x : ℚ) : ℤ := if 0 ≤ x then ⌊x⌋ else ⌈x⌉

/-- C fmod on exact rationals: fmod(x, w) = x - trunc(x/w) * w. -/
def fmodQ (x w : ℚ) : ℚ := x - (truncQ (x / w) : ℚ) * w

/-- osg::round: round half away from zero. -/
def roundAwayQ (x : ℚ) : ℚ :=
  if 0 ≤ x then ((⌊x + 1/2⌋ : ℤ) : ℚ) else ((⌈x - 1/2⌉ : ℤ) : ℚ)

/-- A Corner of the footprint boundary (data model from the spec; the header
declaring the struct is not among the sources).  Fields are exactly those
buildStructure reads and writes. -/
structure Corner where
  base : Vec3
  roof : Vec3
  height : ℚ
  offsetX : ℚ
  isFromSource : Bool
  cosAngle : ℚ
  roofTexU : ℚ
  roofTexV : ℚ
deriving DecidableEq

/-- Default-constructed Corner (numeric fields 0, flags false). -/
def cdef : Corner := ⟨vzero, vzero, 0, 0, false, 0, 0, 0⟩

/-- A Face: the quad between two adjacent Corners
(ExtrudeGeometryFilter.cpp lines 509-521). -/
structure Face where
  left : Corner
  right : Corner
  widthM : ℚ
deriving DecidableEq

/-- Default Face value, used only as the out-of-range result of list
indexing. -/
def fdef : Face := ⟨cdef, cdef, 0⟩

/-- One Elevation per processed sub-part: its final Corners, the derived
Faces, and the adjusted wall-texture height (data model from the spec). -/
structure Elevation where
  corners : List Corner
  faces : List Face
  texHeightAdjustedM : ℚ
deriving DecidableEq

/-- Default Elevation value for out-of-range list indexing. -/
def edef : Elevation := ⟨[], [], 0⟩

/-- The Structure produced for one footprint part. -/
structure Structure where
  isPolygon : Bool
  verticalOffset : ℚ
  elevations : List Elevation
deriving DecidableEq

/-- The wall SkinResource attributes buildStructure and buildWallGeometry
dereference: image width/height in meters, the isTiled flag, and the
scale/bias applied to the final texture coordinates. -/
structure WallSkin where
  imageWidth : ℚ
  imageHeight : ℚ
  isTiled : Bool
  biasS : ℚ
  biasT : ℚ
  scaleS : ℚ
  scaleT : ℚ
deriving DecidableEq

/-- texWidthM (line 322): *wallSkin->imageWidth() when a wall skin is
present, 0.0 otherwise. -/
def texWidthOf : Option WallSkin → ℚ
  | some sk => sk.imageWidth
  | none => 0

/-- texHeightM (line 323): *wallSkin->imageHeight() when a wall skin is
present, 1.0 otherwise. -/
def texHeightOf : Option WallSkin → ℚ
  | some sk => sk.imageHeight
  | none => 1

/-- The vertical-extent pass of buildStructure (lines 240-257): targetLen is
the maximum of z + |height| over every point of every part.  The C++
initializes targetLen to -DBL_MAX, the identity of the running strict-max on
any nonempty geometry; the value on an empty geometry is never read. -/
def targetLenOf (h : ℚ) : List Vec3 → ℚ
  | [] => 0
  | p :: ps => ps.foldl (fun acc q => max acc (q.z + |h|)) (p.z + |h|)

/-- The minimum z over every point (minLoc.z of lines 251-252; initialized
to DBL_MAX in the C++, the identity of the running strict-min). -/
def minZOf : List Vec3 → ℚ
  | [] => 0
  | p :: ps => ps.foldl (fun acc q => min acc q.z) p.z

/-- Lines 341-342: the wall texture height rescaled so that an integral
number of tiles spans maxHeight, falling back to maxHeight itself when the
rounded quotient is not positive. -/
def texHeightAdjusted (maxHeight texHeightM : ℚ) : ℚ :=
  let div := roundAwayQ (maxHeight / texHeightM)
  if 0 < div then maxHeight / div else maxHeight

/-- Step 1 of buildStructure (lines 346-399, non-georeferenced path): build
one source Corner from one input point.  For height >= 0 the roof is the
point raised by height (or lifted to targetLen when flattening); for
height < 0 (extrude down) the roof is the point itself and the base is the
point lowered by |height| (z + height with height negative). -/
def mkCorner (len : Vec3 → ℚ) (h : ℚ) (flatten : Bool) (targetL : ℚ) (p : Vec3) : Corner :=
  let roof : Vec3 :=
    if 0 ≤ h then (if flatten then ⟨p.x, p.y, targetL⟩ else ⟨p.x, p.y, p.z + h⟩) else p
  let base : Vec3 := if 0 ≤ h then p else ⟨p.x, p.y, p.z + h⟩
  { base := base, roof := roof, height := len (roof - base), offsetX := 0,
    isFromSource := true, cosAngle := 0, roofTexU := 0, roofTexV := 0 }

/-- A synthetic tiling Corner (lines 451-459): interpolated `advance` meters
along the edge from `tc`, using the normalized base and roof edge directions
`bv` and `rv`, marked isFromSource = false. -/
def mkTileCorner (len : Vec3 → ℚ) (tc : Corner) (bv rv : Vec3) (off adv : ℚ) : Corner :=
  let b := tc.base + adv • bv
  let r := tc.roof + adv • rv
  { base := b, roof := r, height := len (r - b), offsetX := off + adv,
    isFromSource := false, cosAngle := 0, roofTexU := 0, roofTexV := 0 }

/-- The texture-tiling while loop of lines 430-464 for one edge, with
explicit fuel: while nextTexBoundary < cornerOffset + span, insert a
synthetic Corner at advance = nextTexBoundary - cornerOffset and advance the
boundary by the texture width.  Returns the inserted Corners in order
together with the final boundary, or none if the fuel runs out before the
loop exits. -/
def tileLoop (len : Vec3 → ℚ) (w off span : ℚ) (tc : Corner) (bv rv : Vec3) :
    ℕ → ℚ → Option (List Corner × ℚ)
  | 0, ntb => if ntb < off + span then none else some ([], ntb)
  | Nat.succ f, ntb =>
    if ntb < off + span then
      (tileLoop len w off span tc bv rv f (ntb + w)).map
        fun p => (mkTileCorner len tc bv rv off (ntb - off) :: p.1, p.2)
    else some ([], ntb)

/-- The per-edge body of Step 2 (lines 424-465).  Without a wall skin no
subdivision happens.  With a skin, the wraparound edge of an open line
breaks out of the loop before inserting anything (lines 443-447); every
other edge runs the tiling loop with the normalized base direction
base_vec / span and the normalized roof direction. -/
def step2edge (len : Vec3 → ℚ) (skin : Option WallSkin) (isPoly isLast : Bool)
    (tc nc : Corner) (off ntb span : ℚ) (fuel : ℕ) : Option (List Corner × ℚ) :=
  match skin with
  | none => some ([], ntb)
  | some sk =>
    if isLast && !isPoly then some ([], ntb)
    else
      tileLoop len sk.imageWidth off span tc
        ((1 / span) • (nc.base - tc.base)) (normalizeV len (nc.roof - tc.roof)) fuel ntb

/-- The edges Step 2 iterates over: each source Corner paired with its
cyclic successor, the final pair (back to the first Corner) flagged as the
last edge. -/
def edgesOf : List Corner → Corner → List (Corner × Corner × Bool)
  | [], _ => []
  | [c], c0 => [(c, c0, true)]
  | c :: c' :: rest, c0 => (c, c', false) :: edgesOf (c' :: rest) c0

/-- Step 2 main loop (lines 404-468): walk the source edges accumulating
cornerOffset, record each source Corner's offsetX, and splice in the
synthetic Corners produced for its outgoing edge. -/
def step2aux (len : Vec3 → ℚ) (skin : Option WallSkin) (isPoly : Bool) (fuel : ℕ) :
    List (Corner × Corner × Bool) → ℚ → ℚ → Option (List Corner)
  | [], _, _ => some []
  | (tc, nc, isLast) :: rest, off, ntb =>
    let span := len (nc.base - tc.base)
    (step2edge len skin isPoly isLast tc nc off ntb span fuel).bind fun p =>
      (step2aux len skin isPoly fuel rest (off + span) p.2).map fun restOut =>
        { tc with offsetX := off } :: (p.1 ++ restOut)

/-- Step 2 with its initial state: cornerOffset = 0,
nextTexBoundary = texWidthM. -/
def step2 (len : Vec3 → ℚ) (skin : Option WallSkin) (isPoly : Bool) (fuel : ℕ)
    (corners0 : List Corner) : Option (List Corner) :=
  step2aux len skin isPoly fuel (edgesOf corners0 (corners0.headD cdef)) 0 (texWidthOf skin)

/-- Step 3 (lines 470-494): set each Corner's cosAngle to the dot product of
the normalized incoming and outgoing roof-edge directions; the first Corner
is left untouched. -/
def step3 (len : Vec3 → ℚ) (cs : List Corner) : List Corner :=
  (List.range cs.length).map fun i =>
    let c := cs.getD i cdef
    if i = 0 then c
    else
      let pv := normalizeV len (c.roof - (cs.getD (i - 1) cdef).roof)
      let tv := normalizeV len ((cs.getD ((i + 1) % cs.length) cdef).roof - c.roof)
      { c with cosAngle := dot pv tv }

/-- One Face from a Corner and its successor (lines 509-521).  On the
closing face of a polygon (next corner = first corner) the right copy's
offsetX is recalculated from the actual roof-edge length; widthM always
uses the stored offsets of the two list elements. -/
def mkFace (len : Vec3 → ℚ) (isLast : Bool) (tc nc : Corner) : Face :=
  { left := tc,
    right := if isLast then { nc with offsetX := tc.offsetX + len (nc.roof - tc.roof) } else nc,
    widthM := nc.offsetX - tc.offsetX }

/-- Step 4 (lines 496-523): pair each Corner with its cyclic successor into
a Face, skipping the wraparound pair unless the structure is a polygon. -/
def mkFaces (len : Vec3 → ℚ) (isPoly : Bool) (cs : List Corner) : List Face :=
  (List.range cs.length).filterMap fun i =>
    let tc := cs.getD i cdef
    let nc := cs.getD ((i + 1) % cs.length) cdef
    if i + 1 = cs.length then
      (if isPoly then some (mkFace len true tc nc) else none)
    else some (mkFace len false tc nc)

/-- The per-part body of buildStructure (lines 328-523) for one sub-part
with at least two points: build the source Corners, run the tiling pass,
the angle pass and the face pass, and package the Elevation. -/
def buildElevation (len : Vec3 → ℚ) (fuel : ℕ) (isPoly : Bool) (h : ℚ) (flatten : Bool)
    (skin : Option WallSkin) (targetL maxHeight : ℚ) (part : List Vec3) : Option Elevation :=
  let adj := texHeightAdjusted maxHeight (texHeightOf skin)
  let corners0 := part.map (mkCorner len h flatten targetL)
  (step2 len skin isPoly fuel corners0).map fun cs =>
    { corners := step3 len cs, faces := mkFaces len isPoly (step3 len cs),
      texHeightAdjustedM := adj }

/-- The sub-part loop of buildStructure (lines 325-336): parts with fewer
than two points are skipped (no Elevation is appended for them); the others
each contribute one Elevation, in order. -/
def buildElevations (len : Vec3 → ℚ) (fuel : ℕ) (isPoly : Bool) (h : ℚ) (flatten : Bool)
    (skin : Option WallSkin) (targetL maxHeight : ℚ) :
    List (List Vec3) → Option (List Elevation)
  | [] => some []
  | p :: ps =>
    if p.length < 2 then buildElevations len fuel isPoly h flatten skin targetL maxHeight ps
    else
      (buildElevation len fuel isPoly h flatten skin targetL maxHeight p).bind fun e =>
        (buildElevations len fuel isPoly h flatten skin targetL maxHeight ps).map fun es =>
          e :: es

/-- ExtrudeGeometryFilter::buildStructure (lines 202-527) in the
non-georeferenced configuration, with the input geometry given as its list
of sub-parts and its polygon-ness. -/
def buildStructure (len : Vec3 → ℚ) (fuel : ℕ) (isPoly : Bool) (h : ℚ) (flatten : Bool)
    (vOffset : ℚ) (skin : Option WallSkin) (parts : List (List Vec3)) : Option Structure :=
  let allPts := parts.flatten
  let targetL := targetLenOf h allPts
  let maxHeight := targetL - minZOf allPts
  (buildElevations len fuel isPoly h flatten skin targetL maxHeight parts).map fun es =>
    { isPolygon := isPoly, verticalOffset := vOffset, elevations := es }

/-- Sum of the lengths of the consecutive edges of a point path. -/
def pathSpans (len : Vec3 → ℚ) : List Vec3 → ℚ
  | [] => 0
  | [_] => 0
  | p :: q :: r => len (q - p) + pathSpans len (q :: r)

/-- The closing edge length of a nonempty path (first point minus last). -/
def closingSpan (len : Vec3 → ℚ) : List Vec3 → ℚ
  | [] => 0
  | p :: r => len (p - (p :: r).getLast (by simp))

/-- The perimeter of a footprint part: the sum of its edge base lengths,
including the closing edge exactly when the part is a closed polygon. -/
def perimeter (len : Vec3 → ℚ) (isPoly : Bool) (pts : List Vec3) : ℚ :=
  pathSpans len pts + (if isPoly then closingSpan len pts else 0)

/-- The six wall vertices emitted for one Face (lines 654-659):
roof-left, base-left, base-right, base-right, roof-right, roof-left. -/
def faceWallVerts (f : Face) : List Vec3 :=
  [f.left.roof, f.left.base, f.right.base, f.right.base, f.right.roof, f.left.roof]

/-- The flat per-face wall normal (lines 661-664):
(left.base - left.roof) x (right.base - left.roof). -/
def faceWallNormal (f : Face) : Vec3 :=
  cross (f.left.base - f.left.roof) (f.right.base - f.left.roof)

/-- The per-face texture coordinates before scale/bias (lines 708-725):
U from fmod of the corner offsets by the texture width, with the right U
forced to 1.0 on an exact tile boundary; V = 0 at the base and
h / texHeightAdjustedM at the roof, where h is the recomputed corner wall
height for a vertically tiled skin and texHeightAdjustedM itself
otherwise. -/
def faceTexPre (len : Vec3 → ℚ) (sk : WallSkin) (adj : ℚ) (f : Face) :
    (ℚ × ℚ) × (ℚ × ℚ) × (ℚ × ℚ) × (ℚ × ℚ) :=
  let hL := if sk.isTiled then len (f.left.roof - f.left.base) else adj
  let hR := if sk.isTiled then len (f.right.roof - f.right.base) else adj
  let w := sk.imageWidth
  let uL := fmodQ f.left.offsetX w / w
  let uR0 := fmodQ f.right.offsetX w / w
  let uR := if uR0 < uL ∨ (uL = 0 ∧ uR0 = 0) then 1 else uR0
  ((uL, 0), (uR, 0), (uL, hL / adj), (uR, hR / adj))

/-- Scale-and-bias applied to one texture coordinate (lines 727-730). -/
def applyBias (sk : WallSkin) (t : ℚ × ℚ) : ℚ × ℚ :=
  (sk.biasS + t.1 * sk.scaleS, sk.biasT + t.2 * sk.scaleT)

/-- The six texture coordinates written for one Face (lines 732-737), in
vertex order roof-left, base-left, base-right, base-right, roof-right,
roof-left, each after scale/bias. -/
def faceTexChunk (len : Vec3 → ℚ) (sk : WallSkin) (p : ℚ × Face) : List (ℚ × ℚ) :=
  let t := faceTexPre len sk p.1 p.2
  [applyBias sk t.2.2.1, applyBias sk t.1, applyBias sk t.2.1,
   applyBias sk t.2.1, applyBias sk t.2.2.2, applyBias sk t.2.2.1]

/-- Write the elements of `xs` into `out` at consecutive indices starting at
`vp`, modelling the indexed stores (*verts)[vertptr+i] = ... of the wall
builder. -/
def writeChunk {α : Type} : ℕ → List α → List α → List α
  | _, [], out => out
  | vp, a :: rest, out => writeChunk (vp + 1) rest (out.set vp a)

/-- The face loop of buildWallGeometry (lines 649-745) for one vertex
attribute: write each face's 6-element chunk at vertptr and advance vertptr
by 6. -/
def writeFaces {α : Type} (chunk : ℚ × Face → List α) :
    List (ℚ × Face) → ℕ → List α → List α
  | [], _, out => out
  | f :: fs, vp, out => writeFaces chunk fs (vp + 6) (writeChunk vp (chunk f) out)

/-- One vertex-attribute array of buildWallGeometry: resize the existing
array by 6 entries per face (the header's getNumPoints, per the spec: six
vertices for every face) and run the face loop from the old size, exactly
as vertptr = verts->size(); verts->resize(...). -/
def buildArray {α : Type} (chunk : ℚ × Face → List α) (d : α)
    (fs : List (ℚ × Face)) (prev : List α) : List α :=
  writeFaces chunk fs prev.length (prev ++ List.replicate (6 * fs.length) d)

/-- All Faces of a Structure in elevation-loop order. -/
def allFaces (s : Structure) : List Face := s.elevations.flatMap Elevation.faces

/-- All Faces paired with their Elevation's texHeightAdjustedM, the state
available to the face loop of buildWallGeometry. -/
def facesWithAdj (s : Structure) : List (ℚ × Face) :=
  s.elevations.flatMap fun e => e.faces.map fun f => (e.texHeightAdjustedM, f)

/-- The wall vertex array after buildWallGeometry, appended to the array
contents `prev` left by earlier features sharing the state set. -/
def buildWallVerts (s : Structure) (prev : List Vec3) : List Vec3 :=
  buildArray (fun p => faceWallVerts p.2) vzero (facesWithAdj s) prev

/-- The wall normal array after buildWallGeometry (replicated 6 times per
face, lines 665-670). -/
def buildWallNormals (s : Structure) (prev : List Vec3) : List Vec3 :=
  buildArray (fun p => List.replicate 6 (faceWallNormal p.2)) vzero (facesWithAdj s) prev

/-- The wall texture-coordinate array after buildWallGeometry with wall
skin `sk` (the layer component, constant per skin, is omitted). -/
def buildWallTex (len : Vec3 → ℚ) (sk : WallSkin) (s : Structure)
    (prev : List (ℚ × ℚ)) : List (ℚ × ℚ) :=
  buildArray (faceTexChunk len sk) (0, 0) (facesWithAdj s) prev

/-- A Segment: a pair of consecutive points, as produced by the
ConstSegmentIterator. -/
abbrev Seg : Type := Vec3 × Vec3

/-- The segments of a geometry as iterated by ConstSegmentIterator with
forceClosedLoop = true (modelled from the spec: all edges of the shape,
including the closing edge): consecutive pairs plus last-to-first. -/
def segmentsOf : List Vec3 → List Seg
  | [] => []
  | p :: rest => List.zip (p :: rest) (rest ++ [p])

/-- The squared length of a segment (line 61). -/
def segLen2 (s : Seg) : ℚ := len2v (s.2 - s.1)

/-- Default Segment (line 55, `Segment n;`). -/
def sdef : Seg := (vzero, vzero)

/-- The scan of getApparentRotation (lines 55-67): fold over the segments
keeping the first segment whose squared length strictly exceeds the running
maximum, starting from the default segment and maximum 0. -/
def scanSeg (segs : List Seg) : Seg × ℚ :=
  segs.foldl (fun acc s => if acc.2 < segLen2 s then (s, segLen2 s) else acc) (sdef, 0)

/-- Lines 69-72: order the chosen segment's endpoints by x and take the
coordinate differences handed to atan2 (p2.x - p1.x first, then
p2.y - p1.y). -/
def orientedDir (s : Seg) : ℚ × ℚ :=
  let p1 := if s.1.x < s.2.x then s.1 else s.2
  let p2 := if s.1.x < s.2.x then s.2 else s.1
  (p2.x - p1.x, p2.y - p1.y)

/-- getApparentRotation (lines 53-73), with the transcendental atan2 of the
external math library abstracted as a parameter: scan for the longest edge
and return atan2 of its x-ordered coordinate differences. -/
def getApparentRotation {α : Type} (atan2 : ℚ → ℚ → α) (pts : List Vec3) : α :=
  let d := orientedDir (scanSeg (segmentsOf pts)).1
  atan2 d.1 d.2

/-- The specification-side predicate for C7: index i holds the first edge
of maximal squared length. -/
def isFirstMaxEdge (segs : List Seg) (i : ℕ) : Prop :=
  i < segs.length ∧
  (∀ j, j < segs.length → segLen2 (segs.getD j sdef) ≤ segLen2 (segs.getD i sdef)) ∧
  (∀ j, j < i → segLen2 (segs.getD j sdef) < segLen2 (segs.getD i sdef))

/-- The result of a push call: the children of the returned group, the
warning-level diagnostics emitted, and the features actually handed to
process. -/
structure PushResult (D F : Type) where
  children : List D
  warnings : List String
  processed : List F
deriving DecidableEq

/-- The entry guard of ExtrudeGeometryFilter::push (lines 1313-1323), with
the downstream pipeline abstracted as `proc`: when the style resolved no
extrusion symbol, warn and return a fresh empty group before touching any
feature; otherwise run the pipeline. -/
def pushGuard {D F : Type} (proc : List F → List D × List F)
    (hasExtrusionSymbol : Bool) (features : List F) : PushResult D F :=
  if hasExtrusionSymbol then
    let r := proc features
    { children := r.1, warnings := [], processed := r.2 }
  else
    { children := [],
      warnings := ["Missing required extrusion symbolology; geometry will be empty"],
      processed := [] }

/-- Default edge value for out-of-range list indexing in Step 2. -/
def egdef : Corner × Corner × Bool := (cdef, cdef, false)

/-- The Corner list Step 2 produces when no synthetic corner is inserted:
each source Corner with its cumulative offset recorded. -/
def setOffsets (len : Vec3 → ℚ) : List (Corner × Corner × Bool) → ℚ → List Corner
  | [], _ => []
  | (tc, nc, _) :: rest, off =>
    { tc with offsetX := off } :: setOffsets len rest (off + len (nc.base - tc.base))

/-- The total edge span available to the tiling pass: the sum of the edge
lengths of every edge except the wraparound edge of an open line (on which
the loop breaks before inserting). -/
def sumSpans (len : Vec3 → ℚ) (isPoly : Bool) : List (Corner × Corner × Bool) → ℚ
  | [] => 0
  | (tc, nc, isLast) :: rest =>
    (if isLast && !isPoly then 0 else len (nc.base - tc.base)) + sumSpans len isPoly rest

/-- Concrete square footprint of the spec's extrude-down scenario. -/
def sqPts : List Vec3 := [⟨0, 0, 0⟩, ⟨10, 0, 0⟩, ⟨10, 10, 0⟩, ⟨0, 10, 0⟩]

/-- Concrete two-point open part. -/
def pts2 : List Vec3 := [⟨0, 0, 0⟩, ⟨1, 0, 0⟩]

/-- A wall skin of texture width 5 (identity scale/bias, not tiled). -/
def skW5 : WallSkin := ⟨5, 1, false, 0, 0, 1, 1⟩

/-- A wall skin whose texture width is exactly zero. -/
def skZ : WallSkin := ⟨0, 1, false, 0, 0, 1, 1⟩

/-- A wall skin of texture width 1, not vertically tiled, identity
scale/bias. -/
def sk1 : WallSkin := ⟨1, 1, false, 0, 0, 1, 1⟩

/-- Left corner of the sample wall face: a 7-meter-tall wall post. -/
def cornL : Corner := ⟨⟨0, 0, 0⟩, ⟨0, 0, 7⟩, 7, 0, true, 0, 0, 0⟩

/-- Right corner of the sample wall face (offset 1 along the wall). -/
def cornR : Corner := ⟨⟨1, 0, 0⟩, ⟨1, 0, 7⟩, 7, 1, true, 0, 0, 0⟩

/-- A sample wall Face 7 meters tall and 1 meter wide. -/
def faceC6 : Face := ⟨cornL, cornR, 1⟩

/-- A sample Structure holding the single face `faceC6` in an Elevation
whose adjusted texture height is 7/2 (realizable for walls of uneven
height: maxHeight 7 with texture height 7/2 gives div = 2). -/
def sC6 : Structure := ⟨true, 0, [⟨[cornL, cornR], [faceC6], 7/2⟩]⟩

/-- A sample one-face Structure for the wall-builder witnesses. -/
def sC1 : Structure :=
  ⟨true, 0, [⟨[], [⟨⟨⟨0, 0, 0⟩, ⟨0, 0, 2⟩, 2, 0, true, 0, 0, 0⟩,
                    ⟨⟨3, 0, 0⟩, ⟨3, 0, 2⟩, 2, 3, true, 0, 0, 0⟩, 3⟩], 1⟩]⟩

/-- Concrete geometry whose strictly longest edge is its first edge. -/
def rotPts : List Vec3 := [⟨0, 0, 0⟩, ⟨10, 0, 0⟩, ⟨9, 1, 0⟩]

theorem getD_eq_get {α : Type} (l : List α) (i : ℕ) (hi : i < l.length) (d : α) :
    l.getD i d = l.get ⟨i, hi⟩ := by
  induction l generalizing i with
  | nil => simp at hi
  | cons a t ih =>
    cases i with
    | zero => rfl
    | succ j => exact ih j (by simpa using hi)

theorem getD_map_lt {α β : Type} (f : α → β) (l : List α) (i : ℕ) (hi : i < l.length)
    (d : β) (d' : α) : (l.map f).getD i d = f (l.getD i d') := by
  induction l generalizing i with
  | nil => simp at hi
  | cons a t ih =>
    cases i with
    | zero => rfl
    | succ j => exact ih j (by simpa using hi)

theorem getD_range_map {β : Type} (g : ℕ → β) (n i : ℕ) (hi : i < n) (d : β) :
    ((List.range n).map g).getD i d = g i := by
  rw [getD_map_lt g (List.range n) i (by simpa using hi) d 0]
  congr 1
  rw [getD_eq_get (List.range n) i (by simpa using hi) 0]
  simp

theorem filterMap_all_some {α β : Type} (f : α → Option β) (g : α → β) :
    ∀ l : List α, (∀ a ∈ l, f a = some (g a)) → l.filterMap f = l.map g := by
  intro l
  induction l with
  | nil => intro _; rfl
  | cons a t ih =>
    intro h
    rw [List.filterMap_cons, h a (by simp), List.map_cons, ih fun b hb => h b (by simp [hb])]

theorem length_flatMap_const {α β : Type} (g : α → List β) (k : ℕ) :
    ∀ l : List α, (∀ a ∈ l, (g a).length = k) → (l.flatMap g).length = k * l.length := by
  intro l
  induction l with
  | nil => intro _; simp
  | cons a t ih =>
    intro h
    simp only [List.flatMap_cons, List.length_append, List.length_cons]
    rw [h a (by simp), ih fun b hb => h b (by simp [hb])]
    ring

theorem flatMap_chunk_extract {α β : Type} (g : α → List β) (k : ℕ) (d : α) :
    ∀ (l : List α), (∀ a ∈ l, (g a).length = k) →
      ∀ i, i < l.length → ((l.flatMap g).drop (k * i)).take k = g (l.getD i d) := by
  intro l
  induction l with
  | nil => intro _ i hi; simp at hi
  | cons a t ih =>
    intro h i hi
    cases i with
    | zero =>
      simp only [Nat.mul_zero, List.drop_zero, List.flatMap_cons, List.getD]
      have hk : (g a).length = k := h a (by simp)
      rw [← hk, List.take_left]
      rfl
    | succ j =>
      have hk : (g a).length = k := h a (by simp)
      have hdrop : ((a :: t).flatMap g).drop (k * (j + 1)) = (t.flatMap g).drop (k * j) := by
        simp only [List.flatMap_cons]
        rw [show k * (j + 1) = (g a).length + k * j by rw [hk]; ring]
        rw [← List.drop_drop, List.drop_left]
      rw [hdrop]
      exact ih (fun b hb => h b (by simp [hb])) j (by simpa using hi)

theorem set_append_left {α : Type} (pre l : List α) (a : α) :
    (pre ++ l).set pre.length a = pre ++ l.set 0 a := by
  induction pre with
  | nil => rfl
  | cons p t ih => simp [List.set, ih]

/-- C10: buildStructure's adjusted texture height (lines 341-342) divides
maxHeight by the rounded tile count only when that count is strictly
positive, falling back to maxHeight itself otherwise; the division is never
by zero, the result is nonnegative whenever maxHeight is, and the fallback
fires exactly when the wall is shorter than half the texture height. -/
theorem texHeightAdjusted_safe (maxH texH : ℚ) (ht : 0 < texH) (hm : 0 ≤ maxH) :
    (0 < roundAwayQ (maxH / texH) →
      texHeightAdjusted maxH texH = maxH / roundAwayQ (maxH / texH) ∧
      roundAwayQ (maxH / texH) ≠ 0) ∧
    (¬ 0 < roundAwayQ (maxH / texH) → texHeightAdjusted maxH texH = maxH) ∧
    0 ≤ texHeightAdjusted maxH texH ∧
    (roundAwayQ (maxH / texH) ≤ 0 ↔ 2 * maxH < texH) := by
  have hx : 0 ≤ maxH / texH := div_nonneg hm (le_of_lt ht)
  have hround : roundAwayQ (maxH / texH) = ((⌊maxH / texH + 1/2⌋ : ℤ) : ℚ) := by
    rw [roundAwayQ, if_pos hx]
  refine ⟨fun hpos => ⟨?_, ne_of_gt hpos⟩, fun hneg => ?_, ?_, ?_⟩
  · rw [texHeightAdjusted, if_pos hpos]
  · rw [texHeightAdjusted, if_neg hneg]
  · by_cases hpos : 0 < roundAwayQ (maxH / texH)
    · rw [texHeightAdjusted, if_pos hpos]
      exact div_nonneg hm (le_of_lt hpos)
    · rw [texHeightAdjusted, if_neg hpos]
      exact hm
  · rw [hround]
    have hfl : 0 ≤ ⌊maxH / texH + 1/2⌋ := by
      apply Int.floor_nonneg.mpr
      linarith
    constructor
    · intro hle
      have hz : ⌊maxH / texH + 1/2⌋ = 0 := le_antisymm (by exact_mod_cast hle) hfl
      have hlt : maxH / texH + 1/2 < 1 := by
        have := Int.lt_floor_add_one (maxH / texH + 1/2)
        rw [hz] at this
        push_cast at this
        linarith
      have : maxH / texH < 1/2 := by linarith
      rw [div_lt_iff₀ ht] at this
      linarith
    · intro hlt
      have : maxH / texH < 1/2 := by
        rw [div_lt_iff₀ ht]
        linarith
      have hz : ⌊maxH / texH + 1/2⌋ < 1 := by
        apply Int.floor_lt.mpr
        push_cast
        linarith
      have hz0 : ⌊maxH / texH + 1/2⌋ ≤ 0 := by omega
      exact_mod_cast hz0

/-- Witness for C10 at maxHeight 10, texture height 5. -/
theorem texHeightAdjusted_safe_witness :
    (0 : ℚ) < 5 ∧ (0 : ℚ) ≤ 10 ∧
    ((0 < roundAwayQ ((10 : ℚ) / 5) →
      texHeightAdjusted 10 5 = 10 / roundAwayQ ((10 : ℚ) / 5) ∧
      roundAwayQ ((10 : ℚ) / 5) ≠ 0) ∧
    (¬ 0 < roundAwayQ ((10 : ℚ) / 5) → texHeightAdjusted 10 5 = 10) ∧
    0 ≤ texHeightAdjusted 10 5 ∧
    (roundAwayQ ((10 : ℚ) / 5) ≤ 0 ↔ 2 * 10 < (5 : ℚ))) :=
  ⟨by norm_num, by norm_num, texHeightAdjusted_safe 10 5 (by norm_num) (by norm_num)⟩

theorem writeChunk_spec {α : Type} :
    ∀ (xs pre : List α) (m : ℕ) (d : α), xs.length ≤ m →
      writeChunk pre.length xs (pre ++ List.replicate m d) =
        pre ++ xs ++ List.replicate (m - xs.length) d := by
  intro xs
  induction xs with
  | nil => intro pre m d _; simp [writeChunk]
  | cons x rest ih =>
    intro pre m d hm
    obtain ⟨m', rfl⟩ : ∃ m', m = m' + 1 := by
      cases m with
      | zero => simp at hm
      | succ k => exact ⟨k, rfl⟩
    have hrep : List.replicate (m' + 1) d = d :: List.replicate m' d := by
      simp [List.replicate_succ]
    rw [writeChunk, hrep, set_append_left]
    have hset : (d :: List.replicate m' d).set 0 x = x :: List.replicate m' d := rfl
    rw [hset]
    have happ : pre ++ x :: List.replicate m' d = (pre ++ [x]) ++ List.replicate m' d := by
      simp
    rw [happ]
    have hlen : pre.length + 1 = (pre ++ [x]).length := by simp
    rw [hlen, ih (pre ++ [x]) m' d (by simpa using hm)]
    simp

theorem writeFaces_spec {α : Type} (chunk : ℚ × Face → List α) (d : α) :
    ∀ (fs : List (ℚ × Face)) (pre : List α), (∀ p ∈ fs, (chunk p).length = 6) →
      writeFaces chunk fs pre.length (pre ++ List.replicate (6 * fs.length) d) =
        pre ++ fs.flatMap chunk := by
  intro fs
  induction fs with
  | nil => intro pre _; simp [writeFaces]
  | cons f rest ih =>
    intro pre h6
    have hf : (chunk f).length = 6 := h6 f (by simp)
    have hle : (chunk f).length ≤ 6 * (f :: rest).length := by
      rw [hf, List.length_cons]; omega
    rw [writeFaces, writeChunk_spec (chunk f) pre (6 * (f :: rest).length) d hle]
    have hm : 6 * (f :: rest).length - (chunk f).length = 6 * rest.length := by
      rw [hf]; simp [List.length_cons, Nat.mul_succ]
    rw [hm]
    have happ : pre ++ chunk f ++ List.replicate (6 * rest.length) d =
        (pre ++ chunk f) ++ List.replicate (6 * rest.length) d := by simp
    rw [happ]
    have hlen : pre.length + 6 = (pre ++ chunk f).length := by simp [hf]
    rw [hlen, ih (pre ++ chunk f) fun p hp => h6 p (by simp [hp])]
    simp

theorem buildArray_spec {α : Type} (chunk : ℚ × Face → List α) (d : α)
    (fs : List (ℚ × Face)) (prev : List α) (h6 : ∀ p ∈ fs, (chunk p).length = 6) :
    buildArray chunk d fs prev = prev ++ fs.flatMap chunk := by
  rw [buildArray, writeFaces_spec chunk d fs prev h6]

theorem facesWithAdj_flatMap {β : Type} (s : Structure) (g : Face → List β) :
    (facesWithAdj s).flatMap (fun p => g p.2) = (allFaces s).flatMap g := by
  rw [facesWithAdj, allFaces]
  induction s.elevations with
  | nil => rfl
  | cons e es ih =>
    simp only [List.flatMap_cons, List.flatMap_append, ih]
    congr 1
    rw [List.flatMap_map]

theorem facesWithAdj_length (s : Structure) :
    (facesWithAdj s).length = (allFaces s).length := by
  rw [facesWithAdj, allFaces]
  induction s.elevations with
  | nil => rfl
  | cons e es ih => simp only [List.flatMap_cons, List.length_append, ih, List.length_map]

/-- C1: buildWallGeometry appends, for every Face of every Elevation,
exactly six vertices in the order roof-left, base-left, base-right,
base-right, roof-right, roof-left (lines 649-659), so the wall array grows
by exactly 6 times the total face count, and all six vertices of a face
receive the flat normal (left.base - left.roof) x (right.base - left.roof)
(lines 661-670). -/
theorem wall_six_verts_per_face (s : Structure) (prev pn : List Vec3) :
    buildWallVerts s prev = prev ++ (allFaces s).flatMap faceWallVerts ∧
    (buildWallVerts s prev).length = prev.length + 6 * (allFaces s).length ∧
    buildWallNormals s pn =
      pn ++ (allFaces s).flatMap (fun f => List.replicate 6 (faceWallNormal f)) ∧
    ∀ i, i < (allFaces s).length →
      ((buildWallVerts s prev).drop (prev.length + 6 * i)).take 6 =
        [((allFaces s).getD i fdef).left.roof, ((allFaces s).getD i fdef).left.base,
         ((allFaces s).getD i fdef).right.base, ((allFaces s).getD i fdef).right.base,
         ((allFaces s).getD i fdef).right.roof, ((allFaces s).getD i fdef).left.roof] ∧
      ((buildWallNormals s pn).drop (pn.length + 6 * i)).take 6 =
        List.replicate 6 (faceWallNormal ((allFaces s).getD i fdef)) := by
  have hv : buildWallVerts s prev = prev ++ (allFaces s).flatMap faceWallVerts := by
    rw [buildWallVerts,
      buildArray_spec (fun p => faceWallVerts p.2) vzero (facesWithAdj s) prev
        (fun p _ => rfl),
      facesWithAdj_flatMap s faceWallVerts]
  have hn : buildWallNormals s pn =
      pn ++ (allFaces s).flatMap (fun f => List.replicate 6 (faceWallNormal f)) := by
    rw [buildWallNormals,
      buildArray_spec (fun p => List.replicate 6 (faceWallNormal p.2)) vzero
        (facesWithAdj s) pn (fun p _ => by simp),
      facesWithAdj_flatMap s (fun f => List.replicate 6 (faceWallNormal f))]
  refine ⟨hv, ?_, hn, ?_⟩
  · rw [hv, List.length_append,
      length_flatMap_const faceWallVerts 6 (allFaces s) (fun f _ => rfl)]
  · intro i hi
    constructor
    · rw [hv]
      have hdrop : (prev ++ (allFaces s).flatMap faceWallVerts).drop (prev.length + 6 * i) =
          ((allFaces s).flatMap faceWallVerts).drop (6 * i) := by
        rw [← List.drop_drop, List.drop_left]
      rw [hdrop, flatMap_chunk_extract faceWallVerts 6 fdef (allFaces s)
        (fun f _ => rfl) i hi]
      rfl
    · rw [hn]
      have hdrop : (pn ++ (allFaces s).flatMap
            (fun f => List.replicate 6 (faceWallNormal f))).drop (pn.length + 6 * i) =
          ((allFaces s).flatMap (fun f => List.replicate 6 (faceWallNormal f))).drop (6 * i) := by
        rw [← List.drop_drop, List.drop_left]
      rw [hdrop, flatMap_chunk_extract (fun f => List.replicate 6 (faceWallNormal f)) 6 fdef
        (allFaces s) (fun f _ => by simp) i hi]

/-- Witness for C1 on a concrete one-face structure. -/
theorem wall_six_verts_per_face_witness :
    0 < (allFaces sC1).length ∧
    (((buildWallVerts sC1 []).drop (List.length ([] : List Vec3) + 6 * 0)).take 6 =
        [((allFaces sC1).getD 0 fdef).left.roof, ((allFaces sC1).getD 0 fdef).left.base,
         ((allFaces sC1).getD 0 fdef).right.base, ((allFaces sC1).getD 0 fdef).right.base,
         ((allFaces sC1).getD 0 fdef).right.roof, ((allFaces sC1).getD 0 fdef).left.roof] ∧
      ((buildWallNormals sC1 []).drop (List.length ([] : List Vec3) + 6 * 0)).take 6 =
        List.replicate 6 (faceWallNormal ((allFaces sC1).getD 0 fdef))) :=
  ⟨by norm_num [allFaces, sC1], by
    exact (wall_six_verts_per_face sC1 [] []).2.2.2 0 (by norm_num [allFaces, sC1])⟩

theorem tileLoop_exit (len : Vec3 → ℚ) (w off span : ℚ) (tc : Corner) (bv rv : Vec3)
    (fuel : ℕ) (ntb : ℚ) (h : ¬ ntb < off + span) :
    tileLoop len w off span tc bv rv fuel ntb = some ([], ntb) := by
  cases fuel with
  | zero => rw [tileLoop, if_neg h]
  | succ f => rw [tileLoop, if_neg h]

theorem tileLoop_zero_diverges (len : Vec3 → ℚ) (off span : ℚ) (tc : Corner) (bv rv : Vec3)
    (ntb : ℚ) (h : ntb < off + span) :
    ∀ fuel, tileLoop len 0 off span tc bv rv fuel ntb = none := by
  intro fuel
  induction fuel with
  | zero => rw [tileLoop, if_pos h]
  | succ f ih =>
    rw [tileLoop, if_pos h]
    simp only [add_zero, ih, Option.map_none']

theorem step2aux_noskin (len : Vec3 → ℚ) (poly : Bool) (fuel : ℕ) :
    ∀ (es : List (Corner × Corner × Bool)) (off ntb : ℚ),
      step2aux len none poly fuel es off ntb = some (setOffsets len es off) := by
  intro es
  induction es with
  | nil => intro off ntb; rfl
  | cons e rest ih =>
    intro off ntb
    obtain ⟨tc, nc, isLast⟩ := e
    simp only [step2aux, step2edge, ih, setOffsets, Option.some_bind, Option.map_some',
      List.nil_append]

theorem sumSpans_nonneg (len : Vec3 → ℚ) (poly : Bool) (hlen : ∀ v, 0 ≤ len v) :
    ∀ es : List (Corner × Corner × Bool), 0 ≤ sumSpans len poly es := by
  intro es
  induction es with
  | nil => simp [sumSpans]
  | cons e rest ih =>
    obtain ⟨tc, nc, isLast⟩ := e
    rw [sumSpans]
    have h1 : (0:ℚ) ≤ if isLast && !poly then 0 else len (nc.base - tc.base) := by
      by_cases hb : (isLast && !poly) = true
      · rw [if_pos hb]
      · rw [if_neg hb]; exact hlen _
    linarith

theorem step2aux_wide (len : Vec3 → ℚ) (sk : WallSkin) (poly : Bool) (fuel : ℕ)
    (hlen : ∀ v, 0 ≤ len v) :
    ∀ (cs : List Corner) (c0 : Corner) (off ntb : ℚ),
      off + sumSpans len poly (edgesOf cs c0) ≤ ntb →
      step2aux len (some sk) poly fuel (edgesOf cs c0) off ntb =
        some (setOffsets len (edgesOf cs c0) off) := by
  intro cs
  induction cs with
  | nil => intro c0 off ntb _; rfl
  | cons c t ih =>
    intro c0 off ntb hsum
    cases t with
    | nil =>
      cases poly with
      | false =>
        simp [edgesOf, step2aux, step2edge, setOffsets]
      | true =>
        simp only [edgesOf, sumSpans, Bool.not_true, Bool.and_false,
          Bool.false_eq_true, if_false] at hsum
        have hex : ¬ ntb < off + len (c0.base - c.base) := by
          push_neg
          linarith
        simp only [edgesOf, step2aux, step2edge, Bool.not_true, Bool.and_false,
          Bool.false_eq_true, if_false,
          tileLoop_exit len sk.imageWidth off (len (c0.base - c.base)) c _ _ fuel ntb hex,
          setOffsets, Option.some_bind, Option.map_some', List.nil_append]
    | cons c' t' =>
      have hspan : sumSpans len poly (edgesOf (c :: c' :: t') c0) =
          len (c'.base - c.base) + sumSpans len poly (edgesOf (c' :: t') c0) := by
        simp [edgesOf, sumSpans]
      rw [hspan] at hsum
      have hrest : 0 ≤ sumSpans len poly (edgesOf (c' :: t') c0) :=
        sumSpans_nonneg len poly hlen _
      have hex : ¬ ntb < off + len (c'.base - c.base) := by
        push_neg
        linarith
      have hrec := ih c0 (off + len (c'.base - c.base)) ntb (by linarith)
      simp only [edgesOf, step2aux, step2edge, Bool.false_and, Bool.false_eq_true, if_false,
        tileLoop_exit len sk.imageWidth off (len (c'.base - c.base)) c _ _ fuel ntb hex,
        Option.some_bind, hrec, Option.map_some', setOffsets, List.nil_append]

theorem edgesOf_length : ∀ (cs : List Corner) (c0 : Corner),
    (edgesOf cs c0).length = cs.length := by
  intro cs
  induction cs with
  | nil => intro c0; rfl
  | cons c t ih =>
    intro c0
    cases t with
    | nil => rfl
    | cons c' t' =>
      simp only [edgesOf, List.length_cons, ih c0]

theorem edgesOf_getD_fst : ∀ (cs : List Corner) (c0 : Corner) (i : ℕ), i < cs.length →
    ((edgesOf cs c0).getD i egdef).1 = cs.getD i cdef := by
  intro cs
  induction cs with
  | nil => intro c0 i hi; simp at hi
  | cons c t ih =>
    intro c0 i hi
    cases t with
    | nil =>
      cases i with
      | zero => rfl
      | succ j => simp at hi
    | cons c' t' =>
      cases i with
      | zero => rfl
      | succ j =>
        simp only [edgesOf, List.getD_cons_succ]
        exact ih c0 j (by simpa using hi)

theorem setOffsets_length (len : Vec3 → ℚ) :
    ∀ (es : List (Corner × Corner × Bool)) (off : ℚ),
      (setOffsets len es off).length = es.length := by
  intro es
  induction es with
  | nil => intro off; rfl
  | cons e rest ih =>
    intro off
    obtain ⟨tc, nc, isLast⟩ := e
    simp only [setOffsets, List.length_cons, ih]

theorem setOffsets_getD (len : Vec3 → ℚ) :
    ∀ (es : List (Corner × Corner × Bool)) (off : ℚ) (i : ℕ), i < es.length →
      ∃ o : ℚ, (setOffsets len es off).getD i cdef =
        { (es.getD i egdef).1 with offsetX := o } := by
  intro es
  induction es with
  | nil => intro off i hi; simp at hi
  | cons e rest ih =>
    intro off i hi
    obtain ⟨tc, nc, isLast⟩ := e
    cases i with
    | zero => exact ⟨off, rfl⟩
    | succ j =>
      simp only [setOffsets, List.getD_cons_succ]
      exact ih _ j (by simpa using hi)

theorem step2aux_some_len (len : Vec3 → ℚ) (skin : Option WallSkin) (poly : Bool)
    (fuel : ℕ) : ∀ (es : List (Corner × Corner × Bool)) (off ntb : ℚ) (out : List Corner),
      step2aux len skin poly fuel es off ntb = some out → es.length ≤ out.length := by
  intro es
  induction es with
  | nil => intro off ntb out h; simp
  | cons e rest ih =>
    intro off ntb out h
    obtain ⟨tc, nc, isLast⟩ := e
    simp only [step2aux] at h
    cases h1 : step2edge len skin poly isLast tc nc off ntb (len (nc.base - tc.base)) fuel with
    | none => rw [h1] at h; simp at h
    | some p =>
      rw [h1, Option.some_bind] at h
      cases h2 : step2aux len skin poly fuel rest (off + len (nc.base - tc.base)) p.2 with
      | none => rw [h2] at h; simp at h
      | some restOut =>
        rw [h2, Option.map_some'] at h
        simp only [Option.some.injEq] at h
        subst h
        have := ih (off + len (nc.base - tc.base)) p.2 restOut h2
        simp only [List.length_cons, List.length_append]
        omega

theorem vec3_eq (a b : Vec3) (hx : a.x = b.x) (hy : a.y = b.y) (hz : a.z = b.z) :
    a = b := by
  cases a
  cases b
  simp_all

theorem vec_sub_x (a b : Vec3) : (a - b).x = a.x - b.x := rfl

theorem vec_sub_y (a b : Vec3) : (a - b).y = a.y - b.y := rfl

theorem vec_sub_z (a b : Vec3) : (a - b).z = a.z - b.z := rfl

theorem step3_length (len : Vec3 → ℚ) (cs : List Corner) :
    (step3 len cs).length = cs.length := by
  simp [step3]

theorem step3_getD (len : Vec3 → ℚ) (cs : List Corner) (i : ℕ) (hi : i < cs.length) :
    ((step3 len cs).getD i cdef).base = (cs.getD i cdef).base ∧
    ((step3 len cs).getD i cdef).roof = (cs.getD i cdef).roof ∧
    ((step3 len cs).getD i cdef).height = (cs.getD i cdef).height ∧
    ((step3 len cs).getD i cdef).offsetX = (cs.getD i cdef).offsetX ∧
    ((step3 len cs).getD i cdef).isFromSource = (cs.getD i cdef).isFromSource := by
  rw [step3]
  rw [getD_range_map _ cs.length i hi cdef]
  by_cases h0 : i = 0
  · simp [h0]
  · simp [h0]

theorem step3_mem (len : Vec3 → ℚ) (cs : List Corner) (c : Corner) (hc : c ∈ step3 len cs) :
    ∃ i, i < cs.length ∧ c.isFromSource = (cs.getD i cdef).isFromSource := by
  obtain ⟨⟨i, hi⟩, hget⟩ := List.mem_iff_get.mp hc
  have hi' : i < cs.length := by
    have := hi
    rwa [step3_length] at this
  refine ⟨i, hi', ?_⟩
  rw [← hget, ← getD_eq_get (step3 len cs) i hi cdef]
  exact (step3_getD len cs i hi').2.2.2.2

theorem mkCorner_isFromSource (len : Vec3 → ℚ) (h : ℚ) (fl : Bool) (tl : ℚ) (p : Vec3) :
    (mkCorner len h fl tl p).isFromSource = true := by
  rw [mkCorner]

theorem mkCorner_roof_neg (len : Vec3 → ℚ) (h : ℚ) (fl : Bool) (tl : ℚ) (p : Vec3)
    (hneg : h < 0) : (mkCorner len h fl tl p).roof = p := by
  rw [mkCorner]
  simp [not_le.mpr hneg]

theorem mkCorner_base_neg (len : Vec3 → ℚ) (h : ℚ) (fl : Bool) (tl : ℚ) (p : Vec3)
    (hneg : h < 0) : (mkCorner len h fl tl p).base = ⟨p.x, p.y, p.z + h⟩ := by
  rw [mkCorner]
  simp [not_le.mpr hneg]

theorem mkCorner_base_sub (len : Vec3 → ℚ) (h : ℚ) (fl : Bool) (tl : ℚ) (p q : Vec3) :
    (mkCorner len h fl tl q).base - (mkCorner len h fl tl p).base = q - p := by
  by_cases h0 : 0 ≤ h
  · simp [mkCorner, h0]
  · refine vec3_eq _ _ ?_ ?_ ?_ <;>
      simp [vec_sub_x, vec_sub_y, vec_sub_z, mkCorner, if_neg h0]

theorem mkFaces_length (len : Vec3 → ℚ) (poly : Bool) (cs : List Corner)
    (h1 : 1 ≤ cs.length) :
    (mkFaces len poly cs).length = if poly then cs.length else cs.length - 1 := by
  obtain ⟨m, hm⟩ : ∃ m, cs.length = m + 1 := ⟨cs.length - 1, by omega⟩
  rw [mkFaces, hm, List.range_succ, List.filterMap_append]
  rw [filterMap_all_some _
    (fun i => mkFace len false (cs.getD i cdef) (cs.getD ((i + 1) % (m + 1)) cdef))
    (List.range m)
    (by
      intro i hi
      have him : i < m := List.mem_range.mp hi
      simp only [if_neg (by omega : ¬ i + 1 = m + 1)])]
  cases poly with
  | false => simp
  | true => simp

theorem setOffsets_edges_getD (len : Vec3 → ℚ) (corners0 : List Corner) (c0 : Corner)
    (off : ℚ) (i : ℕ) (hi : i < corners0.length) :
    ∃ o : ℚ, (setOffsets len (edgesOf corners0 c0) off).getD i cdef =
      { corners0.getD i cdef with offsetX := o } := by
  obtain ⟨o, ho⟩ := setOffsets_getD len (edgesOf corners0 c0) off i
    (by rw [edgesOf_length]; exact hi)
  rw [edgesOf_getD_fst corners0 c0 i hi] at ho
  exact ⟨o, ho⟩

theorem setOffsets_edges_length (len : Vec3 → ℚ) (corners0 : List Corner) (c0 : Corner)
    (off : ℚ) :
    (setOffsets len (edgesOf corners0 c0) off).length = corners0.length := by
  rw [setOffsets_length, edgesOf_length]

theorem step2_noskin (len : Vec3 → ℚ) (poly : Bool) (fuel : ℕ) (corners0 : List Corner) :
    step2 len none poly fuel corners0 =
      some (setOffsets len (edgesOf corners0 (corners0.headD cdef)) 0) := by
  rw [step2]
  exact step2aux_noskin len poly fuel _ 0 (texWidthOf none)

theorem headD_map (f : Vec3 → Corner) (pts : List Vec3) (hne : pts ≠ []) (d : Corner)
    (d' : Vec3) : (pts.map f).headD d = f (pts.headD d') := by
  cases pts with
  | nil => exact absurd rfl hne
  | cons p r => rfl

theorem getLastD_head {α : Type} (l : List α) (a d d' : α) :
    (a :: l).getLastD d = (a :: l).getLastD d' := rfl

theorem closingSpan_eq (len : Vec3 → ℚ) (pts : List Vec3) (hne : pts ≠ []) :
    closingSpan len pts = len (pts.headD vzero - pts.getLastD (pts.headD vzero)) := by
  cases pts with
  | nil => exact absurd rfl hne
  | cons p r => rfl

theorem sumSpans_edgesOf_map (len : Vec3 → ℚ) (poly : Bool) (mkf : Vec3 → Corner)
    (hb : ∀ p q : Vec3, (mkf q).base - (mkf p).base = q - p) :
    ∀ (pts : List Vec3) (q0 : Vec3), pts ≠ [] →
      sumSpans len poly (edgesOf (pts.map mkf) (mkf q0)) =
        pathSpans len pts + (if poly then len (q0 - pts.getLastD q0) else 0) := by
  intro pts
  induction pts with
  | nil => intro q0 hne; exact absurd rfl hne
  | cons p r ih =>
    intro q0 _
    cases r with
    | nil =>
      simp only [List.map_cons, List.map_nil, edgesOf, sumSpans, pathSpans]
      cases poly with
      | false => simp
      | true =>
        simp only [Bool.not_true, Bool.and_false, Bool.false_eq_true, if_false, if_true]
        rw [hb p q0]
        rw [show ([p] : List Vec3).getLastD q0 = p from rfl]
        ring
    | cons p' r' =>
      have hmap : (p :: p' :: r').map mkf = mkf p :: mkf p' :: (r'.map mkf) := rfl
      rw [hmap, edgesOf, sumSpans]
      have hrec := ih q0 (by simp)
      rw [show (p' :: r').map mkf = mkf p' :: r'.map mkf from rfl] at hrec
      rw [hrec, hb p p']
      have hpath : pathSpans len (p :: p' :: r') = len (p' - p) + pathSpans len (p' :: r') :=
        rfl
      have hlast : (p :: p' :: r').getLastD q0 = (p' :: r').getLastD q0 := by
        rw [List.getLastD_cons]
        exact getLastD_head r' p' p q0
      rw [hpath, hlast]
      simp only [Bool.false_and, Bool.false_eq_true, if_false]
      ring

theorem step2_wide (len : Vec3 → ℚ) (sk : WallSkin) (poly : Bool) (fuel : ℕ)
    (h tl : ℚ) (flat : Bool) (pts : List Vec3) (hne : pts ≠ [])
    (hlen : ∀ v, 0 ≤ len v)
    (hperim : perimeter len poly pts ≤ sk.imageWidth) :
    step2 len (some sk) poly fuel (pts.map (mkCorner len h flat tl)) =
      some (setOffsets len (edgesOf (pts.map (mkCorner len h flat tl))
        ((pts.map (mkCorner len h flat tl)).headD cdef)) 0) := by
  have hbound : 0 + sumSpans len poly (edgesOf (pts.map (mkCorner len h flat tl))
      (mkCorner len h flat tl (pts.headD vzero))) ≤ texWidthOf (some sk) := by
    rw [sumSpans_edgesOf_map len poly _ (mkCorner_base_sub len h flat tl) pts
      (pts.headD vzero) hne]
    have hclose : (if poly = true then len (pts.headD vzero - pts.getLastD (pts.headD vzero))
        else 0) = (if poly = true then closingSpan len pts else 0) := by
      cases poly with
      | false => rfl
      | true => simp [closingSpan_eq len pts hne]
    rw [hclose]
    rw [perimeter] at hperim
    show 0 + _ ≤ sk.imageWidth
    linarith
  rw [step2, headD_map _ pts hne cdef vzero]
  exact step2aux_wide len sk poly fuel hlen (pts.map (mkCorner len h flat tl))
    (mkCorner len h flat tl (pts.headD vzero)) 0 (texWidthOf (some sk)) hbound

theorem vec_add_x (a b : Vec3) : (a + b).x = a.x + b.x := rfl

theorem vec_add_y (a b : Vec3) : (a + b).y = a.y + b.y := rfl

theorem vec_add_z (a b : Vec3) : (a + b).z = a.z + b.z := rfl

theorem buildElevation_inv (len : Vec3 → ℚ) (fuel : ℕ) (poly flat : Bool) (h : ℚ)
    (skin : Option WallSkin) (tl mh : ℚ) (part : List Vec3) (e : Elevation)
    (he : buildElevation len fuel poly h flat skin tl mh part = some e) :
    ∃ cs, step2 len skin poly fuel (part.map (mkCorner len h flat tl)) = some cs ∧
      e.corners = step3 len cs ∧ e.faces = mkFaces len poly (step3 len cs) ∧
      e.texHeightAdjustedM = texHeightAdjusted mh (texHeightOf skin) := by
  simp only [buildElevation] at he
  cases h2 : step2 len skin poly fuel (part.map (mkCorner len h flat tl)) with
  | none => rw [h2] at he; simp at he
  | some cs =>
    rw [h2, Option.map_some'] at he
    simp only [Option.some.injEq] at he
    exact ⟨cs, rfl, by rw [← he], by rw [← he], by rw [← he]⟩

theorem buildElevations_mem (len : Vec3 → ℚ) (fuel : ℕ) (poly flat : Bool) (h : ℚ)
    (skin : Option WallSkin) (tl mh : ℚ) :
    ∀ (parts : List (List Vec3)) (es : List Elevation),
      buildElevations len fuel poly h flat skin tl mh parts = some es →
      ∀ e ∈ es, ∃ part ∈ parts, 2 ≤ part.length ∧
        buildElevation len fuel poly h flat skin tl mh part = some e := by
  intro parts
  induction parts with
  | nil =>
    intro es hs e he
    simp only [buildElevations, Option.some.injEq] at hs
    subst hs
    simp at he
  | cons p ps ih =>
    intro es hs e he
    simp only [buildElevations] at hs
    by_cases hlt : p.length < 2
    · rw [if_pos hlt] at hs
      obtain ⟨part, hmem, h2, hbe⟩ := ih es hs e he
      exact ⟨part, by simp [hmem], h2, hbe⟩
    · rw [if_neg hlt] at hs
      cases h1 : buildElevation len fuel poly h flat skin tl mh p with
      | none => rw [h1] at hs; simp at hs
      | some e0 =>
        rw [h1, Option.some_bind] at hs
        cases h2 : buildElevations len fuel poly h flat skin tl mh ps with
        | none => rw [h2] at hs; simp at hs
        | some es0 =>
          rw [h2, Option.map_some'] at hs
          simp only [Option.some.injEq] at hs
          subst hs
          rcases List.mem_cons.mp he with rfl | hin
          · exact ⟨p, by simp, by omega, h1⟩
          · obtain ⟨part, hmem, hl2, hbe⟩ := ih es0 h2 e hin
            exact ⟨part, by simp [hmem], hl2, hbe⟩

theorem buildElevations_filter (len : Vec3 → ℚ) (fuel : ℕ) (poly flat : Bool) (h : ℚ)
    (skin : Option WallSkin) (tl mh : ℚ) :
    ∀ parts : List (List Vec3),
      buildElevations len fuel poly h flat skin tl mh parts =
        buildElevations len fuel poly h flat skin tl mh
          (parts.filter fun p => decide (2 ≤ p.length)) := by
  intro parts
  induction parts with
  | nil => rfl
  | cons p ps ih =>
    by_cases hlt : p.length < 2
    · have hpred : (decide (2 ≤ p.length)) = false := by
        simp
        omega
      have hl : buildElevations len fuel poly h flat skin tl mh (p :: ps) =
          buildElevations len fuel poly h flat skin tl mh ps := by
        simp only [buildElevations, if_pos hlt]
      rw [hl, ih]
      congr 1
      rw [List.filter_cons, hpred]
      simp
    · have hpred : (decide (2 ≤ p.length)) = true := by
        simp
        omega
      have hfil : (p :: ps).filter (fun q => decide (2 ≤ q.length)) =
          p :: ps.filter (fun q => decide (2 ≤ q.length)) := by
        rw [List.filter_cons, hpred]
        simp
      rw [hfil]
      simp only [buildElevations, if_neg hlt]
      rw [ih]

theorem buildElevations_length (len : Vec3 → ℚ) (fuel : ℕ) (poly flat : Bool) (h : ℚ)
    (skin : Option WallSkin) (tl mh : ℚ) :
    ∀ (parts : List (List Vec3)) (es : List Elevation),
      buildElevations len fuel poly h flat skin tl mh parts = some es →
      es.length = (parts.filter fun p => decide (2 ≤ p.length)).length := by
  intro parts
  induction parts with
  | nil =>
    intro es hs
    simp only [buildElevations, Option.some.injEq] at hs
    subst hs
    rfl
  | cons p ps ih =>
    intro es hs
    simp only [buildElevations] at hs
    by_cases hlt : p.length < 2
    · rw [if_pos hlt] at hs
      have hpred : (decide (2 ≤ p.length)) = false := by simp; omega
      rw [List.filter_cons, hpred]
      simpa using ih es hs
    · rw [if_neg hlt] at hs
      have hpred : (decide (2 ≤ p.length)) = true := by simp; omega
      cases h1 : buildElevation len fuel poly h flat skin tl mh p with
      | none => rw [h1] at hs; simp at hs
      | some e0 =>
        rw [h1, Option.some_bind] at hs
        cases h2 : buildElevations len fuel poly h flat skin tl mh ps with
        | none => rw [h2] at hs; simp at hs
        | some es0 =>
          rw [h2, Option.map_some'] at hs
          simp only [Option.some.injEq] at hs
          subst hs
          rw [List.filter_cons, hpred]
          simpa using ih es0 h2

theorem buildStructure_inv (len : Vec3 → ℚ) (fuel : ℕ) (poly flat : Bool) (h voff : ℚ)
    (skin : Option WallSkin) (parts : List (List Vec3)) (s : Structure)
    (hs : buildStructure len fuel poly h flat voff skin parts = some s) :
    s.isPolygon = poly ∧ s.verticalOffset = voff ∧
    buildElevations len fuel poly h flat skin (targetLenOf h parts.flatten)
      (targetLenOf h parts.flatten - minZOf parts.flatten) parts = some s.elevations := by
  simp only [buildStructure] at hs
  cases h1 : buildElevations len fuel poly h flat skin (targetLenOf h parts.flatten)
      (targetLenOf h parts.flatten - minZOf parts.flatten) parts with
  | none => rw [h1] at hs; simp at hs
  | some es =>
    rw [h1, Option.map_some'] at hs
    simp only [Option.some.injEq] at hs
    subst hs
    exact ⟨rfl, rfl, rfl⟩

/-- C2: for every Elevation buildStructure produces, the number of Faces
equals the number of Corners (including synthetic ones) for a closed
polygon and one fewer for an open line (Step 4, lines 496-523); in
particular an open part of exactly two points with no subdivision yields
exactly one Face. -/
theorem faces_corners_invariant (len : Vec3 → ℚ) (fuel : ℕ) (poly flat : Bool)
    (h voff : ℚ) (skin : Option WallSkin) (parts : List (List Vec3)) (s : Structure)
    (hs : buildStructure len fuel poly h flat voff skin parts = some s) :
    (∀ e ∈ s.elevations, 2 ≤ e.corners.length ∧
      e.faces.length = if poly then e.corners.length else e.corners.length - 1) ∧
    (poly = false → skin = none → ∀ p q : Vec3, parts = [[p, q]] →
      ∃ e, s.elevations = [e] ∧ e.faces.length = 1) := by
  obtain ⟨hpoly, hoff, hels⟩ := buildStructure_inv len fuel poly flat h voff skin parts s hs
  constructor
  · intro e he
    obtain ⟨part, hmem, h2, hbe⟩ :=
      buildElevations_mem len fuel poly flat h skin _ _ parts s.elevations hels e he
    obtain ⟨cs, hstep2, hcorners, hfaces, _⟩ :=
      buildElevation_inv len fuel poly flat h skin _ _ part e hbe
    have hlen2 : part.length ≤ cs.length := by
      have hgot := step2aux_some_len len skin poly fuel
        (edgesOf (part.map (mkCorner len h flat _))
          ((part.map (mkCorner len h flat _)).headD cdef)) 0 (texWidthOf skin) cs
        (by rw [← step2]; exact hstep2)
      rwa [edgesOf_length, List.length_map] at hgot
    have hc : e.corners.length = cs.length := by rw [hcorners, step3_length]
    refine ⟨by omega, ?_⟩
    rw [hfaces, hcorners,
      mkFaces_length len poly (step3 len cs) (by rw [step3_length]; omega)]
  · intro hpoly0 hskin p q hparts
    subst hpoly0
    subst hskin
    subst hparts
    have h2 : ¬ ([p, q] : List Vec3).length < 2 := by simp
    simp only [buildElevations, if_neg h2, buildElevation, step2_noskin,
      Option.some_bind, Option.map_some', Option.some.injEq] at hels
    refine ⟨_, hels.symm, ?_⟩
    have hcl : (setOffsets len (edgesOf ([p, q].map (mkCorner len h flat
        (targetLenOf h ([[p, q]] : List (List Vec3)).flatten)))
        (([p, q].map (mkCorner len h flat
          (targetLenOf h ([[p, q]] : List (List Vec3)).flatten))).headD cdef)) 0).length
        = 2 := by
      rw [setOffsets_edges_length, List.length_map]
      rfl
    rw [mkFaces_length len false _ (by rw [step3_length, hcl]; omega), step3_length, hcl]
    rfl

/-- Witness for C2: a two-point open part with no wall skin. -/
theorem faces_corners_invariant_witness :
    (∃ s, buildStructure len0 0 false 5 false 0 none [pts2] = some s ∧
      ((∀ e ∈ s.elevations, 2 ≤ e.corners.length ∧
        e.faces.length = if false then e.corners.length else e.corners.length - 1) ∧
       (false = false → (none : Option WallSkin) = none →
        ∀ p q : Vec3, [pts2] = [[p, q]] →
          ∃ e, s.elevations = [e] ∧ e.faces.length = 1))) := by
  cases hs : buildStructure len0 0 false 5 false 0 none [pts2] with
  | none =>
    exfalso
    simp only [buildStructure, buildElevations, buildElevation, pts2, step2_noskin,
      Option.some_bind, Option.map_some'] at hs
    simp at hs
  | some s =>
    exact ⟨s, rfl, faces_corners_invariant len0 0 false false 5 0 none [pts2] s hs⟩

/-- C8: parts with fewer than two points are skipped silently and
individually by buildStructure (lines 330-332): the elevation list is
exactly the one produced from the filtered part list, and its length is the
number of parts with at least two points. -/
theorem short_parts_skipped (len : Vec3 → ℚ) (fuel : ℕ) (poly flat : Bool)
    (h voff tl mh : ℚ) (skin : Option WallSkin) (parts : List (List Vec3)) :
    buildElevations len fuel poly h flat skin tl mh parts =
      buildElevations len fuel poly h flat skin tl mh
        (parts.filter fun p => decide (2 ≤ p.length)) ∧
    ∀ s, buildStructure len fuel poly h flat voff skin parts = some s →
      s.elevations.length = (parts.filter fun p => decide (2 ≤ p.length)).length := by
  refine ⟨buildElevations_filter len fuel poly flat h skin tl mh parts, ?_⟩
  intro s hs
  obtain ⟨_, _, hels⟩ := buildStructure_inv len fuel poly flat h voff skin parts s hs
  exact buildElevations_length len fuel poly flat h skin _ _ parts s.elevations hels

theorem point_lower (p : Vec3) (h : ℚ) : (⟨p.x, p.y, p.z + h⟩ : Vec3) = p + ⟨0, 0, h⟩ := by
  apply vec3_eq <;> simp [vec_add_x, vec_add_y, vec_add_z]

/-- C5: with height < 0 (extrude down), buildStructure gives every source
Corner the original input point as its roof and the input point lowered by
|height| as its base (lines 362-366), keeping isFromSource true; with no
wall skin the corner sequence is exactly the source points. -/
theorem extrude_down_corners (len : Vec3 → ℚ) (fuel : ℕ) (poly flat : Bool) (h voff : ℚ)
    (parts : List (List Vec3)) (s : Structure) (hneg : h < 0)
    (hs : buildStructure len fuel poly h flat voff none parts = some s) :
    ∀ e ∈ s.elevations, ∃ part ∈ parts, 2 ≤ part.length ∧
      e.corners.length = part.length ∧
      ∀ i, i < part.length →
        (e.corners.getD i cdef).roof = part.getD i vzero ∧
        (e.corners.getD i cdef).base = part.getD i vzero + (⟨0, 0, h⟩ : Vec3) ∧
        (e.corners.getD i cdef).isFromSource = true := by
  intro e he
  obtain ⟨_, _, hels⟩ := buildStructure_inv len fuel poly flat h voff none parts s hs
  obtain ⟨part, hmem, h2, hbe⟩ :=
    buildElevations_mem len fuel poly flat h none _ _ parts s.elevations hels e he
  obtain ⟨cs, hstep2, hcorners, _, _⟩ :=
    buildElevation_inv len fuel poly flat h none _ _ part e hbe
  rw [step2_noskin] at hstep2
  have hcs := (Option.some_inj.mp hstep2).symm
  have hlencs : cs.length = part.length := by
    rw [hcs, setOffsets_edges_length, List.length_map]
  refine ⟨part, hmem, h2, by rw [hcorners, step3_length, hlencs], ?_⟩
  intro i hi
  have hi' : i < cs.length := by omega
  have hf := step3_getD len cs i hi'
  obtain ⟨o, ho⟩ := setOffsets_edges_getD len
    (part.map (mkCorner len h flat (targetLenOf h parts.flatten)))
    ((part.map (mkCorner len h flat (targetLenOf h parts.flatten))).headD cdef) 0 i
    (by rw [List.length_map]; exact hi)
  have hcsi : cs.getD i cdef =
      { (part.map (mkCorner len h flat (targetLenOf h parts.flatten))).getD i cdef with
        offsetX := o } := by
    rw [hcs]
    exact ho
  have hmapi : (part.map (mkCorner len h flat (targetLenOf h parts.flatten))).getD i cdef =
      mkCorner len h flat (targetLenOf h parts.flatten) (part.getD i vzero) :=
    getD_map_lt _ part i hi cdef vzero
  rw [hcorners]
  refine ⟨?_, ?_, ?_⟩
  · rw [hf.2.1, hcsi]
    show ((part.map (mkCorner len h flat (targetLenOf h parts.flatten))).getD i cdef).roof = _
    rw [hmapi]
    exact mkCorner_roof_neg len h flat _ _ hneg
  · rw [hf.1, hcsi]
    show ((part.map (mkCorner len h flat (targetLenOf h parts.flatten))).getD i cdef).base = _
    rw [hmapi, mkCorner_base_neg len h flat _ _ hneg]
    exact point_lower (part.getD i vzero) h
  · rw [hf.2.2.2.2, hcsi]
    show ((part.map (mkCorner len h flat
      (targetLenOf h parts.flatten))).getD i cdef).isFromSource = true
    rw [hmapi]
    exact mkCorner_isFromSource len h flat _ _

/-- C3: when the wall texture width is at least every part's perimeter, the
tiling pass of buildStructure inserts no synthetic Corner: every Corner of
every resulting Elevation is from the source and the Corner count equals
the part's point count (lines 404-468). -/
theorem wide_texture_no_synthetic (len : Vec3 → ℚ) (fuel : ℕ) (poly flat : Bool)
    (h voff : ℚ) (sk : WallSkin) (parts : List (List Vec3)) (s : Structure)
    (hlen : ∀ v, 0 ≤ len v)
    (hs : buildStructure len fuel poly h flat voff (some sk) parts = some s)
    (hwide : ∀ part ∈ parts, perimeter len poly part ≤ sk.imageWidth) :
    ∀ e ∈ s.elevations, (∀ c ∈ e.corners, c.isFromSource = true) ∧
      ∃ part ∈ parts, 2 ≤ part.length ∧ e.corners.length = part.length := by
  intro e he
  obtain ⟨_, _, hels⟩ := buildStructure_inv len fuel poly flat h voff (some sk) parts s hs
  obtain ⟨part, hmem, h2, hbe⟩ :=
    buildElevations_mem len fuel poly flat h (some sk) _ _ parts s.elevations hels e he
  obtain ⟨cs, hstep2, hcorners, _, _⟩ :=
    buildElevation_inv len fuel poly flat h (some sk) _ _ part e hbe
  have hne : part ≠ [] := by
    intro hnil
    rw [hnil] at h2
    simp at h2
  rw [step2_wide len sk poly fuel h _ flat part hne hlen (hwide part hmem)] at hstep2
  have hcs := (Option.some_inj.mp hstep2).symm
  have hlencs : cs.length = part.length := by
    rw [hcs, setOffsets_edges_length, List.length_map]
  constructor
  · intro c hc
    rw [hcorners] at hc
    obtain ⟨i, hi, hsrc⟩ := step3_mem len cs c hc
    obtain ⟨o, ho⟩ := setOffsets_edges_getD len
      (part.map (mkCorner len h flat (targetLenOf h parts.flatten)))
      ((part.map (mkCorner len h flat (targetLenOf h parts.flatten))).headD cdef) 0 i
      (by rw [List.length_map, ← hlencs]; exact hi)
    have hcsi : cs.getD i cdef =
        { (part.map (mkCorner len h flat (targetLenOf h parts.flatten))).getD i cdef with
          offsetX := o } := by
      rw [hcs]
      exact ho
    rw [hsrc, hcsi]
    show ((part.map (mkCorner len h flat
      (targetLenOf h parts.flatten))).getD i cdef).isFromSource = true
    rw [getD_map_lt _ part i (by omega) cdef vzero]
    exact mkCorner_isFromSource len h flat _ _
  · exact ⟨part, hmem, h2, by rw [hcorners, step3_length, hlencs]⟩

theorem zero_width_step2 (tl : ℚ) (fuel : ℕ) :
    step2 l1 (some skZ) false fuel (pts2.map (mkCorner l1 5 false tl)) = none := by
  rw [step2]
  have hspan : l1 ((mkCorner l1 5 false tl ⟨1, 0, 0⟩).base -
      (mkCorner l1 5 false tl ⟨0, 0, 0⟩).base) = 1 := by
    rw [mkCorner_base_sub]
    show |(1:ℚ) - 0| + |(0:ℚ) - 0| + |(0:ℚ) - 0| = 1
    norm_num
  have hmap : pts2.map (mkCorner l1 5 false tl) =
      [mkCorner l1 5 false tl ⟨0, 0, 0⟩, mkCorner l1 5 false tl ⟨1, 0, 0⟩] := rfl
  rw [hmap]
  have hedges : edgesOf [mkCorner l1 5 false tl ⟨0, 0, 0⟩, mkCorner l1 5 false tl ⟨1, 0, 0⟩]
      (([mkCorner l1 5 false tl ⟨0, 0, 0⟩, mkCorner l1 5 false tl ⟨1, 0, 0⟩]).headD cdef) =
      [(mkCorner l1 5 false tl ⟨0, 0, 0⟩, mkCorner l1 5 false tl ⟨1, 0, 0⟩, false),
       (mkCorner l1 5 false tl ⟨1, 0, 0⟩, mkCorner l1 5 false tl ⟨0, 0, 0⟩, true)] := rfl
  rw [hedges]
  simp only [step2aux, step2edge, Bool.false_and, Bool.false_eq_true, if_false]
  rw [hspan]
  rw [show skZ.imageWidth = 0 from rfl]
  rw [tileLoop_zero_diverges l1 0 1 (mkCorner l1 5 false tl ⟨0, 0, 0⟩) _ _
    (texWidthOf (some skZ)) (by rw [show texWidthOf (some skZ) = 0 from rfl]; norm_num) fuel]
  simp

/-- C4 (falsified by the code): with a wall skin present whose texture
width is exactly zero and a part with a positive-length edge, the tiling
while loop of buildStructure never advances nextTexBoundary
(nextTexBoundary += texWidthM adds 0, lines 430-464) and keeps inserting a
synthetic corner at the same spot: the model returns none at every fuel,
i.e. the C++ loop never exits, instead of the claimed fallback to a single
texture tile. -/
theorem zero_width_skin_diverges :
    ∀ fuel : ℕ, buildStructure l1 fuel false 5 false 0 (some skZ) [pts2] = none := by
  intro fuel
  simp only [buildStructure, buildElevations, buildElevation]
  rw [if_neg (by norm_num [pts2] : ¬ (pts2.length < 2))]
  rw [zero_width_step2 (targetLenOf 5 ([pts2] : List (List Vec3)).flatten) fuel]
  simp

/-- Witness for C5 on the spec's square footprint with height -5. -/
theorem extrude_down_corners_witness :
    ((-5 : ℚ) < 0) ∧
    ∃ s, buildStructure len0 0 true (-5) false 0 none [sqPts] = some s ∧
      ∀ e ∈ s.elevations, ∃ part ∈ [sqPts], 2 ≤ part.length ∧
        e.corners.length = part.length ∧
        ∀ i, i < part.length →
          (e.corners.getD i cdef).roof = part.getD i vzero ∧
          (e.corners.getD i cdef).base = part.getD i vzero + (⟨0, 0, -5⟩ : Vec3) ∧
          (e.corners.getD i cdef).isFromSource = true := by
  refine ⟨by norm_num, ?_⟩
  cases hs : buildStructure len0 0 true (-5) false 0 none [sqPts] with
  | none =>
    exfalso
    simp only [buildStructure, buildElevations, buildElevation, sqPts, step2_noskin,
      Option.some_bind, Option.map_some'] at hs
    simp at hs
  | some s =>
    exact ⟨s, rfl, extrude_down_corners len0 0 true false (-5) 0 [sqPts] s (by norm_num) hs⟩

/-- Witness for C3 on a two-point part with texture width 5 and zero
perimeter under the constant-zero length function. -/
theorem wide_texture_no_synthetic_witness :
    (∀ v, 0 ≤ len0 v) ∧
    (∀ part ∈ [pts2], perimeter len0 false part ≤ skW5.imageWidth) ∧
    ∃ s, buildStructure len0 0 false 5 false 0 (some skW5) [pts2] = some s ∧
      ∀ e ∈ s.elevations, (∀ c ∈ e.corners, c.isFromSource = true) ∧
        ∃ part ∈ [pts2], 2 ≤ part.length ∧ e.corners.length = part.length := by
  have hlen : ∀ v, 0 ≤ len0 v := fun v => le_refl 0
  have hperim : ∀ part ∈ [pts2], perimeter len0 false part ≤ skW5.imageWidth := by
    intro part hp
    rcases List.mem_singleton.mp hp with rfl
    norm_num [perimeter, pathSpans, closingSpan, len0, pts2, skW5]
  refine ⟨hlen, hperim, ?_⟩
  have hsome : ∃ s0, buildStructure len0 0 false 5 false 0 (some skW5) [pts2] = some s0 := by
    simp only [buildStructure, buildElevations, buildElevation]
    rw [if_neg (by norm_num [pts2] : ¬ (pts2.length < 2))]
    rw [step2_wide len0 skW5 false 0 5 (targetLenOf 5 ([pts2] : List (List Vec3)).flatten)
      false pts2 (by simp [pts2]) hlen (hperim pts2 (by simp))]
    exact ⟨_, rfl⟩
  obtain ⟨s0, hs⟩ := hsome
  exact ⟨s0, hs, wide_texture_no_synthetic len0 0 false false 5 0 skW5 [pts2] s0
    hlen hs hperim⟩

/-- Witness for C8: a one-point part followed by a two-point part. -/
theorem short_parts_skipped_witness :
    (buildElevations len0 0 false 5 false none 5 5 [[⟨0, 0, 9⟩], pts2] =
      buildElevations len0 0 false 5 false none 5 5
        (([[⟨0, 0, 9⟩], pts2] : List (List Vec3)).filter fun p => decide (2 ≤ p.length))) ∧
    ∃ s, buildStructure len0 0 false 5 false 0 none [[⟨0, 0, 9⟩], pts2] = some s ∧
      s.elevations.length = (([[⟨0, 0, 9⟩], pts2] : List (List Vec3)).filter
        fun p => decide (2 ≤ p.length)).length := by
  refine ⟨(short_parts_skipped len0 0 false false 5 0 5 5 none [[⟨0, 0, 9⟩], pts2]).1, ?_⟩
  cases hs : buildStructure len0 0 false 5 false 0 none [[⟨0, 0, 9⟩], pts2] with
  | none =>
    exfalso
    simp only [buildStructure, buildElevations, buildElevation, pts2, step2_noskin,
      Option.some_bind, Option.map_some'] at hs
    simp at hs
  | some s =>
    exact ⟨s, rfl,
      (short_parts_skipped len0 0 false false 5 0 5 5 none [[⟨0, 0, 9⟩], pts2]).2 s hs⟩

/-- C6 (amended): with a wall skin of texture width w > 0, the wall texture
coordinates are appended per face as U = fmod(offsetX, w)/w on each side,
the right U forced to exactly 1 when it would wrap below the left U or both
U values are 0; base V = 0, and roof V = h / texHeightAdjustedM where h is
the recomputed corner wall height when the skin repeats vertically and
texHeightAdjustedM itself otherwise — all before scale/bias
(lines 705-737). -/
theorem wall_tex_coords (len : Vec3 → ℚ) (sk : WallSkin) (_hw : 0 < sk.imageWidth)
    (s : Structure) (prev : List (ℚ × ℚ)) :
    buildWallTex len sk s prev = prev ++ (facesWithAdj s).flatMap (faceTexChunk len sk) ∧
    ∀ (adj : ℚ) (f : Face),
      faceTexChunk len sk (adj, f) =
        [applyBias sk (fmodQ f.left.offsetX sk.imageWidth / sk.imageWidth,
            (if sk.isTiled then len (f.left.roof - f.left.base) else adj) / adj),
         applyBias sk (fmodQ f.left.offsetX sk.imageWidth / sk.imageWidth, 0),
         applyBias sk (if fmodQ f.right.offsetX sk.imageWidth / sk.imageWidth <
              fmodQ f.left.offsetX sk.imageWidth / sk.imageWidth ∨
              (fmodQ f.left.offsetX sk.imageWidth / sk.imageWidth = 0 ∧
               fmodQ f.right.offsetX sk.imageWidth / sk.imageWidth = 0)
            then 1 else fmodQ f.right.offsetX sk.imageWidth / sk.imageWidth, 0),
         applyBias sk (if fmodQ f.right.offsetX sk.imageWidth / sk.imageWidth <
              fmodQ f.left.offsetX sk.imageWidth / sk.imageWidth ∨
              (fmodQ f.left.offsetX sk.imageWidth / sk.imageWidth = 0 ∧
               fmodQ f.right.offsetX sk.imageWidth / sk.imageWidth = 0)
            then 1 else fmodQ f.right.offsetX sk.imageWidth / sk.imageWidth, 0),
         applyBias sk (if fmodQ f.right.offsetX sk.imageWidth / sk.imageWidth <
              fmodQ f.left.offsetX sk.imageWidth / sk.imageWidth ∨
              (fmodQ f.left.offsetX sk.imageWidth / sk.imageWidth = 0 ∧
               fmodQ f.right.offsetX sk.imageWidth / sk.imageWidth = 0)
            then 1 else fmodQ f.right.offsetX sk.imageWidth / sk.imageWidth,
            (if sk.isTiled then len (f.right.roof - f.right.base) else adj) / adj),
         applyBias sk (fmodQ f.left.offsetX sk.imageWidth / sk.imageWidth,
            (if sk.isTiled then len (f.left.roof - f.left.base) else adj) / adj)] := by
  constructor
  · rw [buildWallTex,
      buildArray_spec (faceTexChunk len sk) (0, 0) (facesWithAdj s) prev
        (fun p _ => rfl)]
  · intro adj f
    rfl

/-- Witness for C6 (amended) at the concrete skin sk1, structure sC6. -/
theorem wall_tex_coords_witness :
    (0 : ℚ) < sk1.imageWidth ∧
    buildWallTex len0 sk1 sC6 [] =
      [] ++ (facesWithAdj sC6).flatMap (faceTexChunk len0 sk1) :=
  ⟨by norm_num [sk1], (wall_tex_coords len0 sk1 (by norm_num [sk1]) sC6 []).1⟩

/-- C6 counterexample: for the 7-meter wall face faceC6 rendered with the
non-tiled skin sk1 (width 1 > 0, identity scale/bias) at adjusted texture
height 7/2, the emitted roof-left V coordinate is 1, while the claim's
formula wall-height / texHeightAdjustedM gives 2. -/
theorem wall_tex_v_counterexample :
    (0 : ℚ) < sk1.imageWidth ∧
    (buildWallTex l1 sk1 sC6 []).getD 0 (0, 0) = (0, 1) ∧
    l1 (faceC6.left.roof - faceC6.left.base) / ((7 : ℚ)/2) = 2 ∧
    (1 : ℚ) ≠ 2 := by
  refine ⟨by norm_num [sk1], ?_, ?_, by norm_num⟩
  · norm_num [buildWallTex, buildArray, writeFaces, writeChunk, facesWithAdj, sC6, sk1,
      faceTexChunk, faceTexPre, faceC6, cornL, cornR, applyBias, fmodQ, truncQ,
      List.replicate, List.set]
  · norm_num [l1, faceC6, cornL, vec_sub_x, vec_sub_y, vec_sub_z]

theorem getD_mem {α : Type} (l : List α) (i : ℕ) (hi : i < l.length) (d : α) :
    l.getD i d ∈ l := by
  rw [getD_eq_get l i hi d]
  exact List.get_mem l i hi

theorem segLen2_nonneg (s : Seg) : 0 ≤ segLen2 s := by
  have h1 := mul_self_nonneg (s.2 - s.1).x
  have h2 := mul_self_nonneg (s.2 - s.1).y
  have h3 := mul_self_nonneg (s.2 - s.1).z
  simp only [segLen2, len2v]
  linarith

theorem orientedDir_of_len2_zero (s : Seg) (h : segLen2 s = 0) : orientedDir s = (0, 0) := by
  simp only [segLen2, len2v] at h
  have h1 := mul_self_nonneg (s.2 - s.1).x
  have h2 := mul_self_nonneg (s.2 - s.1).y
  have h3 := mul_self_nonneg (s.2 - s.1).z
  have hx : (s.2 - s.1).x = 0 := by nlinarith
  have hy : (s.2 - s.1).y = 0 := by nlinarith
  rw [vec_sub_x] at hx
  rw [vec_sub_y] at hy
  have hxx : s.1.x = s.2.x := by linarith
  simp only [orientedDir, hxx, lt_self_iff_false, if_false, Prod.mk.injEq]
  constructor
  · ring
  · linarith

theorem orientedDir_sdef : orientedDir sdef = (0, 0) := by
  simp [orientedDir, sdef, vzero]

theorem scanFold_spec :
    ∀ (l : List Seg) (b0 : Seg) (m0 : ℚ),
      (l.foldl (fun acc s => if acc.2 < segLen2 s then (s, segLen2 s) else acc) (b0, m0) =
          (b0, m0) ∧ ∀ s ∈ l, segLen2 s ≤ m0) ∨
      (∃ i, i < l.length ∧
        l.foldl (fun acc s => if acc.2 < segLen2 s then (s, segLen2 s) else acc) (b0, m0) =
          (l.getD i sdef, segLen2 (l.getD i sdef)) ∧
        m0 < segLen2 (l.getD i sdef) ∧
        (∀ s ∈ l, segLen2 s ≤ segLen2 (l.getD i sdef)) ∧
        (∀ j, j < i → segLen2 (l.getD j sdef) < segLen2 (l.getD i sdef))) := by
  intro l
  induction l with
  | nil => intro b0 m0; left; exact ⟨rfl, by simp⟩
  | cons a t ih =>
    intro b0 m0
    by_cases hlt : m0 < segLen2 a
    · have hstep : (a :: t).foldl
          (fun acc s => if acc.2 < segLen2 s then (s, segLen2 s) else acc) (b0, m0) =
          t.foldl (fun acc s => if acc.2 < segLen2 s then (s, segLen2 s) else acc)
            (a, segLen2 a) := by
        simp [List.foldl_cons, if_pos hlt]
      rcases ih a (segLen2 a) with ⟨heq, hall⟩ | ⟨i, hi, heq, hlt2, hall, hstrict⟩
      · right
        refine ⟨0, by simp, ?_, ?_, ?_, ?_⟩
        · rw [hstep, heq]; rfl
        · simpa using hlt
        · intro s hs
          rcases List.mem_cons.mp hs with rfl | hs
          · simp
          · simpa using hall s hs
        · intro j hj; omega
      · right
        refine ⟨i + 1, by simpa using Nat.succ_lt_succ hi, ?_, ?_, ?_, ?_⟩
        · rw [hstep, heq]; rfl
        · simpa using lt_trans hlt hlt2
        · intro s hs
          rcases List.mem_cons.mp hs with rfl | hs
          · simpa using le_of_lt hlt2
          · simpa using hall s hs
        · intro j hj
          cases j with
          | zero => simpa using hlt2
          | succ k => simpa using hstrict k (by omega)
    · have hstep : (a :: t).foldl
          (fun acc s => if acc.2 < segLen2 s then (s, segLen2 s) else acc) (b0, m0) =
          t.foldl (fun acc s => if acc.2 < segLen2 s then (s, segLen2 s) else acc)
            (b0, m0) := by
        simp [List.foldl_cons, if_neg hlt]
      rcases ih b0 m0 with ⟨heq, hall⟩ | ⟨i, hi, heq, hlt2, hall, hstrict⟩
      · left
        refine ⟨by rw [hstep, heq], ?_⟩
        intro s hs
        rcases List.mem_cons.mp hs with rfl | hs
        · exact le_of_not_lt hlt
        · exact hall s hs
      · right
        refine ⟨i + 1, by simpa using Nat.succ_lt_succ hi, ?_, ?_, ?_, ?_⟩
        · rw [hstep, heq]; rfl
        · simpa using hlt2
        · intro s hs
          rcases List.mem_cons.mp hs with rfl | hs
          · simpa using (le_of_not_lt hlt).trans (le_of_lt hlt2)
          · simpa using hall s hs
        · intro j hj
          cases j with
          | zero =>
            simp only [List.getD_cons_zero, List.getD_cons_succ]
            exact lt_of_le_of_lt (le_of_not_lt hlt) hlt2
          | succ k => simpa using hstrict k (by omega)

theorem segmentsOf_length (pts : List Vec3) : (segmentsOf pts).length = pts.length := by
  cases pts with
  | nil => rfl
  | cons p rest => simp [segmentsOf]

/-- C7: getApparentRotation returns atan2 of the x-ordered coordinate
differences of the first edge of maximal squared length, scanning all edges
in order with ties broken by the first edge found (lines 53-73). -/
theorem apparent_rotation_longest_edge {α : Type} (atan2 : ℚ → ℚ → α) (pts : List Vec3)
    (h2 : 2 ≤ pts.length) :
    ∃ i, isFirstMaxEdge (segmentsOf pts) i ∧
      getApparentRotation atan2 pts =
        atan2 (orientedDir ((segmentsOf pts).getD i sdef)).1
              (orientedDir ((segmentsOf pts).getD i sdef)).2 := by
  have hlen : (segmentsOf pts).length = pts.length := segmentsOf_length pts
  have hpos : 0 < (segmentsOf pts).length := by omega
  rcases scanFold_spec (segmentsOf pts) sdef 0 with ⟨heq, hall⟩ |
    ⟨i, hi, heq, _, hall, hstrict⟩
  · have h0 : ∀ j, j < (segmentsOf pts).length →
        segLen2 ((segmentsOf pts).getD j sdef) = 0 := by
      intro j hj
      exact le_antisymm (hall _ (getD_mem _ j hj sdef))
        (segLen2_nonneg ((segmentsOf pts).getD j sdef))
    refine ⟨0, ⟨hpos, ?_, ?_⟩, ?_⟩
    · intro j hj
      rw [h0 j hj, h0 0 hpos]
    · intro j hj; omega
    · have hscan : (scanSeg (segmentsOf pts)).1 = sdef := by
        rw [scanSeg, heq]
      rw [getApparentRotation, hscan, orientedDir_sdef,
        orientedDir_of_len2_zero _ (h0 0 hpos)]
  · refine ⟨i, ⟨hi, ?_, hstrict⟩, ?_⟩
    · intro j hj
      exact hall _ (getD_mem _ j hj sdef)
    · have hscan : (scanSeg (segmentsOf pts)).1 = (segmentsOf pts).getD i sdef := by
        rw [scanSeg, heq]
      rw [getApparentRotation, hscan]

/-- Witness for C7 on a triangle whose first edge is strictly longest. -/
theorem apparent_rotation_longest_edge_witness :
    2 ≤ rotPts.length ∧
    (∃ i, isFirstMaxEdge (segmentsOf rotPts) i ∧
      getApparentRotation Prod.mk rotPts =
        ((orientedDir ((segmentsOf rotPts).getD i sdef)).1,
         (orientedDir ((segmentsOf rotPts).getD i sdef)).2)) :=
  ⟨by norm_num [rotPts], apparent_rotation_longest_edge Prod.mk rotPts (by norm_num [rotPts])⟩

/-- C9: when the style resolved no extrusion symbol, push returns an empty
group, emits a warning diagnostic, and processes no feature
(lines 1313-1323). -/
theorem push_missing_extrusion {D F : Type} (proc : List F → List D × List F)
    (hasSym : Bool) (features : List F) (h : hasSym = false) :
    (pushGuard proc hasSym features).children = [] ∧
    (pushGuard proc hasSym features).warnings =
      ["Missing required extrusion symbolology; geometry will be empty"] ∧
    (pushGuard proc hasSym features).processed = [] := by
  subst h
  simp [pushGuard]

/-- Witness for C9 with a pipeline that would produce output if run. -/
theorem push_missing_extrusion_witness :
    (false = false) ∧
    ((pushGuard (fun l => ([0], l)) false [1, 2, 3]).children = ([] : List ℕ) ∧
     (pushGuard (fun l => ([0], l)) false [1, 2, 3]).warnings =
       ["Missing required extrusion symbolology; geometry will be empty"] ∧
     (pushGuard (fun l => ([0], l)) false [1, 2, 3]).processed = ([] : List ℕ)) :=
  ⟨rfl, push_missing_extrusion (fun l => ([0], l)) false [1, 2, 3] rfl⟩

end ExtrudeModel
